import Mathlib

/-!
Verification development for the embycache-for-unraid repository.

The Python sources are shallowly embedded as pure Lean functions:
  - filesystem state (existence, sizes, free space, subprocess exit codes)
    is passed explicitly through environment records;
  - Python string operations (`in`, `str.find`, `str.replace(a, b, 1)`,
    `os.path.basename`, `os.path.dirname`, `pathlib.Path.parent`,
    `pathlib.Path.relative_to(...).parts`) are implemented over `String`
    for absolute POSIX paths;
  - logging and byte statistics, which have no effect on planning or on
    file mutation, are elided.
-/

namespace EmbyCache

/-! ### Python string / path primitives -/

/-- Index of the first occurrence of `pat` in `hay` (over character lists),
mirroring Python `str.find` (which returns the first match, and `0` for the
empty pattern). -/
def subFind : List Char → List Char → Option Nat
  | [], pat => if pat.isEmpty then some 0 else none
  | c :: rest, pat =>
    if pat.isPrefixOf (c :: rest) then some 0
    else (subFind rest pat).map (· + 1)

/-- Python `s.find(pat)` as an `Option` (none instead of `-1`). -/
def strFind (s pat : String) : Option Nat := subFind s.data pat.data

/-- Python containment test `pat in s`. -/
def strContains (s pat : String) : Bool := (strFind s pat).isSome

/-- Python `s.replace(old, new, 1)`: replace the first occurrence only. -/
def pyReplace1 (s old new : String) : String :=
  match strFind s old with
  | none => s
  | some i => String.mk (s.data.take i ++ new.data ++ s.data.drop (i + old.data.length))

/-- Characters after the last `'/'` (accumulator holds the current
segment reversed). -/
def basenameAux : List Char → List Char → List Char
  | [], acc => acc.reverse
  | c :: rest, acc =>
    if c = '/' then basenameAux rest [] else basenameAux rest (c :: acc)

/-- Python `os.path.basename`: the part after the last slash. -/
def basename (s : String) : String := String.mk (basenameAux s.data [])

/-- Split a character list on `'/'`, keeping empty segments (the shape of
Python `s.split('/')`). -/
def splitOnSlash : List Char → List (List Char)
  | [] => [[]]
  | c :: rest =>
    match splitOnSlash rest with
    | [] => [[]]
    | h :: t => if c = '/' then [] :: h :: t else (c :: h) :: t

/-- Python `s.startswith(pre)`. -/
def pyStartsWith (s pre : String) : Bool := pre.data.isPrefixOf s.data

/-- Join non-empty path segments with slashes. -/
def joinWith (sep : String) : List String → String
  | [] => ""
  | [x] => x
  | x :: xs => x ++ sep ++ joinWith sep xs

/-- Index of the last `'/'` in a character list. -/
def lastSlashIdx (cs : List Char) : Option Nat :=
  (go cs 0 none)
where
  go : List Char → Nat → Option Nat → Option Nat
    | [], _, acc => acc
    | c :: rest, i, acc => go rest (i + 1) (if c = '/' then some i else acc)

/-- Python `os.path.dirname`: everything up to the last slash, with trailing
slashes stripped unless the result is all slashes. -/
def dirname (s : String) : String :=
  match lastSlashIdx s.data with
  | none => ""
  | some i =>
    let head := s.data.take (i + 1)
    if head ≠ [] ∧ ¬ head.all (· = '/') then
      String.mk ((head.reverse.dropWhile (· = '/')).reverse)
    else
      String.mk head

/-- Nonempty path components of a POSIX path (`pathlib` normalisation drops
empty segments produced by duplicate or trailing slashes). -/
def partsOf (s : String) : List String :=
  ((splitOnSlash s.data).filter (fun seg => ¬ seg.isEmpty)).map String.mk

/-- `str(pathlib.Path(s).parent)` for a normalised POSIX path. -/
def pyParent (s : String) : String :=
  let ps := partsOf s
  if pyStartsWith s "/" then
    if ps.length ≤ 1 then "/" else "/" ++ joinWith "/" ps.dropLast
  else
    if ps.length ≤ 1 then "." else joinWith "/" ps.dropLast

/-- `pathlib.Path(p).relative_to(base)` on absolute normalised paths:
the component list of `p` past `base`, or `none` when `p` is not below
`base` (Python raises `ValueError` there). -/
def relPartsTo (p base : String) : Option (List String) :=
  if (partsOf base).isPrefixOf (partsOf p) then
    some ((partsOf p).drop (partsOf base).length)
  else none

/-! ### C1 models: `EmbyCache.robust_move` (embycache_run.py) and
`safe_move` (scripts/embycache_mover.py).

Both are embedded as pure functions of the observations the Python code
makes (rsync exit code, destination existence and size, delete success);
the output records which files were mutated. -/

/-- Observations made by `robust_move` in embycache_run.py. -/
structure RobustMoveEnv where
  srcSize : Nat
  rsyncRet : Int
  dstExists : Bool
  dstSize : Nat
  removeOk : Bool
deriving DecidableEq

/-- Outcome of a move routine: reported success and which files were
actually deleted. -/
structure MoveOutcome where
  success : Bool
  srcDeleted : Bool
  dstDeleted : Bool
deriving DecidableEq

/-- `EmbyCache.robust_move` (embycache_run.py lines 292-310): run rsync;
on exit code 0 verify the destination exists with the source's size, and
only then delete the source.  Any other outcome returns `False` and
mutates nothing further. -/
def robust_move (e : RobustMoveEnv) : MoveOutcome :=
  if e.rsyncRet = 0 then
    if e.dstExists = true ∧ e.dstSize = e.srcSize then
      if e.removeOk then ⟨true, true, false⟩ else ⟨false, false, false⟩
    else ⟨false, false, false⟩
  else ⟨false, false, false⟩

/-- Observations made by `safe_move` in scripts/embycache_mover.py. -/
structure SafeMoveEnv where
  runFlag : Bool
  srcSize : Nat
  freeAtDst : Nat
  rsyncFound : Bool
  rsyncRet : Int
  dstIsFile : Bool
  dstSize : Nat
  removeOk : Bool
deriving DecidableEq

/-- Result of `safe_move`: the byte count it returns plus which files were
deleted. -/
structure SafeMoveOut where
  bytes : Nat
  srcDeleted : Bool
  dstDeleted : Bool
deriving DecidableEq

/-- `safe_move` (scripts/embycache_mover.py lines 222-265): free-space
check, then (with `--run`) rsync, then destination-existence and size
verification, then source deletion; every failure path returns 0 bytes
and deletes nothing. -/
def safe_move (e : SafeMoveEnv) : SafeMoveOut :=
  if e.freeAtDst < e.srcSize then ⟨0, false, false⟩
  else if e.runFlag then
    if ¬ e.rsyncFound then ⟨0, false, false⟩
    else if ¬ e.rsyncRet = 0 then ⟨0, false, false⟩
    else if ¬ e.dstIsFile = true then ⟨0, false, false⟩
    else if ¬ e.dstSize = e.srcSize then ⟨0, false, false⟩
    else if e.removeOk then ⟨e.srcSize, true, false⟩
    else ⟨0, false, false⟩
  else ⟨e.srcSize, false, false⟩

end EmbyCache

namespace EmbyCache

/-- C1: in enact mode the source is deleted only after the copy subprocess
exited with code 0 and the destination was confirmed to exist with the
source's size; on any verification failure both routines report failure
and delete neither the source nor the partial destination. -/
theorem c1_source_deleted_only_after_verified_copy
    (r : RobustMoveEnv) (s : SafeMoveEnv) :
    ((robust_move r).srcDeleted = true →
      r.rsyncRet = 0 ∧ r.dstExists = true ∧ r.dstSize = r.srcSize) ∧
    (¬ (r.rsyncRet = 0 ∧ r.dstExists = true ∧ r.dstSize = r.srcSize) →
      (robust_move r).success = false ∧ (robust_move r).srcDeleted = false ∧
        (robust_move r).dstDeleted = false) ∧
    (s.runFlag = true → (safe_move s).srcDeleted = true →
      s.rsyncRet = 0 ∧ s.dstIsFile = true ∧ s.dstSize = s.srcSize) ∧
    (s.runFlag = true →
      ¬ (s.rsyncRet = 0 ∧ s.dstIsFile = true ∧ s.dstSize = s.srcSize) →
      (safe_move s).bytes = 0 ∧ (safe_move s).srcDeleted = false ∧
        (safe_move s).dstDeleted = false) := by
  unfold robust_move safe_move
  refine ⟨?_, ?_, ?_, ?_⟩ <;> split_ifs <;> simp_all

/-- Sample environment for C1: a fully verified successful move. -/
def c1EnvOk : RobustMoveEnv :=
  { srcSize := 5, rsyncRet := 0, dstExists := true, dstSize := 5, removeOk := true }

/-- Sample environment for C1: rsync succeeded but the copy came out short. -/
def c1EnvBad : SafeMoveEnv :=
  { runFlag := true, srcSize := 5, freeAtDst := 100, rsyncFound := true,
    rsyncRet := 0, dstIsFile := true, dstSize := 4, removeOk := true }

theorem c1_source_deleted_only_after_verified_copy_witness :
    (c1EnvOk.rsyncRet = 0 ∧ c1EnvOk.dstExists = true ∧
      c1EnvOk.dstSize = c1EnvOk.srcSize) ∧
    ((safe_move c1EnvBad).bytes = 0 ∧ (safe_move c1EnvBad).srcDeleted = false ∧
      (safe_move c1EnvBad).dstDeleted = false) :=
  ⟨(c1_source_deleted_only_after_verified_copy c1EnvOk c1EnvBad).1 (by decide),
   (c1_source_deleted_only_after_verified_copy c1EnvOk c1EnvBad).2.2.2
     (by decide) (by decide)⟩

/-! ### The `EmbyCache.run` planning engine (embycache_run.py lines 335-413)

`run` is embedded as a pure function of a `RunEnv`: the `on_deck_data`
candidate list, the active-session basename set, the previous snapshot
(`embycache_exclude.txt` lines), the cache free-space percentage and an
abstract existence predicate standing for `Path.exists`. -/

/-- A generic fold-invariant principle used for the phase folds. -/
theorem foldlInv {α σ : Type _} (f : σ → α → σ) (P : σ → Prop)
    (h : ∀ s a, P s → P (f s a)) : ∀ (l : List α) (s : σ), P s → P (l.foldl f s)
  | [], _, hs => hs
  | a :: t, s, hs => foldlInv f P h t (f s a) (h s a hs)

/-- Python `set.add` on a membership-faithful list model of a set. -/
def insertPath (s : List String) (p : String) : List String :=
  if p ∈ s then s else s ++ [p]

theorem self_mem_insertPath (s : List String) (p : String) : p ∈ insertPath s p := by
  unfold insertPath; split_ifs with h
  · exact h
  · simp

theorem mem_insertPath (s : List String) (p q : String) (h : q ∈ s) :
    q ∈ insertPath s p := by
  unfold insertPath; split_ifs <;> simp [h]

theorem mem_insertPath_iff (s : List String) (p q : String) :
    q ∈ insertPath s p ↔ q ∈ s ∨ q = p := by
  unfold insertPath; split_ifs with h <;> simp
  intro hq; subst hq; exact h

/-- One `(prio, path, reason)` triple of `get_on_deck_extended`'s output. -/
structure OnDeckItem where
  prio : Nat
  src : String
  reason : String
deriving DecidableEq

/-- The configuration fields of `embycache_settings.json` that `run` reads. -/
structure RunConfig where
  cache_path : String
  array_path : String
  min_free_percent : ℚ
  libraries : List String

/-- A promote order: `robust_move` is invoked on `(arrSrc, cacheDst)`;
`src` records the `/mnt/user` candidate path the order was derived from. -/
structure MoveOrder where
  src : String
  arrSrc : String
  cacheDst : String
deriving DecidableEq

/-- The ambient state `run` works in. -/
structure RunEnv where
  config : RunConfig
  onDeck : List OnDeckItem
  sessions : List String
  prevExclude : List String
  free_pct : ℚ
  existsF : String → Bool

/-- State threaded through Phase 1: `current_on_deck_paths` plus the
promote orders planned so far. -/
structure Phase1St where
  onDeckPaths : List String
  orders : List MoveOrder

/-- The body of the Phase 1 loop (embycache_run.py lines 351-375):
library filter, `/mnt/user` prefix substitution towards both tiers,
unconditional snapshot registration of the cache destination, then a
promote order when the file is on the array but not on the cache and is
not currently playing. -/
def phase1Step (cfg : RunConfig) (sessions : List String) (existsF : String → Bool)
    (st : Phase1St) (it : OnDeckItem) : Phase1St :=
  let src := it.src
  if cfg.libraries ≠ [] ∧ ¬ cfg.libraries.any (fun l => strContains src l) then st
  else if strContains src "/mnt/user" then
    let cache_dst := pyReplace1 src "/mnt/user" cfg.cache_path
    let arr_src := pyReplace1 src "/mnt/user" cfg.array_path
    let st1 : Phase1St := { st with onDeckPaths := insertPath st.onDeckPaths cache_dst }
    if existsF arr_src = true ∧ existsF cache_dst = false then
      if basename src ∈ sessions then st1
      else { st1 with orders := st1.orders ++ [⟨src, arr_src, cache_dst⟩] }
    else st1
  else { st with onDeckPaths := insertPath st.onDeckPaths src }

/-- Phase 1 (ARRAY → CACHE), guarded by the free-space circuit breaker
`free_pct > min_free_percent` (embycache_run.py line 350). -/
def phase1 (env : RunEnv) : Phase1St :=
  if env.free_pct > env.config.min_free_percent then
    env.onDeck.foldl (phase1Step env.config env.sessions env.existsF) ⟨[], []⟩
  else ⟨[], []⟩

/-- State threaded through Phase 2: the evolving snapshot set and
`files_to_move_back`. -/
structure Phase2St where
  onDeckPaths : List String
  demote : List String

/-- The body of the Phase 2 loop (embycache_run.py lines 380-398):
drop vanished paths, skip paths still wanted, defer paths being played
(re-adding them to the snapshot), demote the rest. -/
def phase2Step (sessions : List String) (existsF : String → Bool)
    (st : Phase2St) (p : String) : Phase2St :=
  if existsF p = false then st
  else if p ∈ st.onDeckPaths then st
  else if basename p ∈ sessions then { st with onDeckPaths := insertPath st.onDeckPaths p }
  else { st with demote := st.demote ++ [p] }

/-- Phase 2 (CACHE → ARRAY) over the previous snapshot. -/
def phase2 (env : RunEnv) (st : Phase2St) : Phase2St :=
  env.prevExclude.foldl (phase2Step env.sessions env.existsF) st

/-- Everything `run` decides and every persistent effect it performs. -/
structure RunOut where
  orders : List MoveOrder
  demote : List String
  snapshot : List String
  executedMoves : List MoveOrder
  moverInvoked : Option (List String)
  snapshotWrite : Option (List String)
  originWrite : Bool
  cleanupRan : Bool

/-- `EmbyCache.run` (embycache_run.py lines 335-413): Phase 1, Phase 2
seeded with Phase 1's `current_on_deck_paths`, then the effect gates —
`robust_move` per order and the Unraid mover only with `--run`, and the
snapshot/origin rewrite only with `--run`. -/
def runModel (run_mode : Bool) (env : RunEnv) : RunOut :=
  let p1 := phase1 env
  let p2 := phase2 env ⟨p1.onDeckPaths, []⟩
  { orders := p1.orders
    demote := p2.demote
    snapshot := p2.onDeckPaths
    executedMoves := if run_mode then p1.orders else []
    moverInvoked := if run_mode ∧ p2.demote ≠ [] then some p2.demote else none
    snapshotWrite := if run_mode then some p2.onDeckPaths else none
    originWrite := run_mode
    cleanupRan := run_mode }

/-- One session of one instance: `playing.add(os.path.basename(p))` when a
`NowPlayingItem` path is present. -/
def sessionAddStep (acc : List String) (o : Option String) : List String :=
  match o with
  | some p => insertPath acc (basename p)
  | none => acc

/-- `get_active_sessions` (embycache_run.py lines 279-290): collect the
basenames of every `NowPlayingItem` path over all instances. -/
def get_active_sessions (inst : List (List (Option String))) : List String :=
  inst.foldl (fun acc ss => ss.foldl sessionAddStep acc) []

theorem sessionAddStep_mono (acc : List String) (o : Option String) (x : String)
    (h : x ∈ acc) : x ∈ sessionAddStep acc o := by
  unfold sessionAddStep
  cases o <;> simp [h, mem_insertPath]

theorem sessions_inner_mono (ss : List (Option String)) (acc : List String)
    (x : String) (h : x ∈ acc) : x ∈ ss.foldl sessionAddStep acc :=
  foldlInv sessionAddStep (x ∈ ·) (fun s o hs => sessionAddStep_mono s o x hs) ss acc h

theorem sessions_inner_mem (q : String) :
    ∀ (ss : List (Option String)) (acc : List String), some q ∈ ss →
      basename q ∈ ss.foldl sessionAddStep acc := by
  intro ss
  induction ss with
  | nil => simp
  | cons o t ih =>
    intro acc hq
    rcases List.mem_cons.mp hq with rfl | hq'
    · exact sessions_inner_mono t _ _ (self_mem_insertPath acc (basename q))
    · exact ih _ hq'

theorem sessions_outer_mem (q : String) :
    ∀ (inst : List (List (Option String))) (acc : List String),
      (∃ ss ∈ inst, some q ∈ ss) →
      basename q ∈ inst.foldl (fun acc2 ss => ss.foldl sessionAddStep acc2) acc := by
  intro inst
  induction inst with
  | nil => rintro acc ⟨ss, hss, _⟩; cases hss
  | cons s t ih =>
    rintro acc ⟨ss, hss, hmem⟩
    rcases List.mem_cons.mp hss with rfl | hss'
    · exact foldlInv _ (basename q ∈ ·)
        (fun acc2 ss2 h => sessions_inner_mono ss2 acc2 _ h) t _
        (sessions_inner_mem q ss acc hmem)
    · exact ih _ ⟨ss, hss', hmem⟩

/-- Any path playing on any instance contributes its basename to the
active-session set. -/
theorem mem_get_active_sessions (inst : List (List (Option String))) (q : String)
    (hq : ∃ ss ∈ inst, some q ∈ ss) : basename q ∈ get_active_sessions inst :=
  sessions_outer_mem q inst [] hq

/-! Shared invariants of the two phases. -/

theorem phase1Step_onDeck_mono (cfg : RunConfig) (sessions : List String)
    (existsF : String → Bool) (st : Phase1St) (it : OnDeckItem) (q : String)
    (h : q ∈ st.onDeckPaths) :
    q ∈ (phase1Step cfg sessions existsF st it).onDeckPaths := by
  unfold phase1Step
  dsimp only
  split_ifs <;> simp_all [mem_insertPath]

theorem phase1Step_orders_safe (cfg : RunConfig) (sessions : List String)
    (existsF : String → Bool) (st : Phase1St) (it : OnDeckItem)
    (h : ∀ o ∈ st.orders, basename o.src ∉ sessions) :
    ∀ o ∈ (phase1Step cfg sessions existsF st it).orders,
      basename o.src ∉ sessions := by
  unfold phase1Step
  dsimp only
  split_ifs with h1 h2 h3 h4 <;> simp_all
  intro o ho
  rcases ho with ho | ho
  · exact h o ho
  · subst ho; exact h4

/-- Every planned promote order originates from a candidate whose basename
is not in the active-session set. -/
theorem phase1_orders_safe (env : RunEnv) :
    ∀ o ∈ (phase1 env).orders, basename o.src ∉ env.sessions := by
  unfold phase1
  split_ifs
  · exact foldlInv _ (fun st => ∀ o ∈ st.orders, basename o.src ∉ env.sessions)
      (fun st it hst => phase1Step_orders_safe _ _ _ st it hst) env.onDeck ⟨[], []⟩
      (by simp)
  · simp

theorem phase2Step_onDeck_mono (sessions : List String) (existsF : String → Bool)
    (st : Phase2St) (p : String) (q : String) (h : q ∈ st.onDeckPaths) :
    q ∈ (phase2Step sessions existsF st p).onDeckPaths := by
  unfold phase2Step
  split_ifs <;> simp_all [mem_insertPath]

theorem phase2Step_demote_safe (sessions : List String) (existsF : String → Bool)
    (st : Phase2St) (p : String)
    (h : ∀ q ∈ st.demote, basename q ∉ sessions) :
    ∀ q ∈ (phase2Step sessions existsF st p).demote, basename q ∉ sessions := by
  unfold phase2Step
  split_ifs with h1 h2 h3 <;> simp_all
  intro q hq
  rcases hq with hq | hq
  · exact h q hq
  · subst hq; exact h3

/-- Every demoted path has a basename outside the active-session set. -/
theorem phase2_demote_safe (env : RunEnv) (st : Phase2St)
    (h : ∀ q ∈ st.demote, basename q ∉ env.sessions) :
    ∀ q ∈ (phase2 env st).demote, basename q ∉ env.sessions := by
  unfold phase2
  exact foldlInv _ (fun s => ∀ q ∈ s.demote, basename q ∉ env.sessions)
    (fun s p hs => phase2Step_demote_safe _ _ s p hs) env.prevExclude st h

/-- A path that is in the snapshot set when Phase 2 starts is never
demoted and stays in the snapshot. -/
theorem phase2_base_not_demoted (env : RunEnv) (st : Phase2St) (p : String)
    (hmem : p ∈ st.onDeckPaths) (hdem : p ∉ st.demote) :
    p ∈ (phase2 env st).onDeckPaths ∧ p ∉ (phase2 env st).demote := by
  unfold phase2
  refine foldlInv _ (fun s => p ∈ s.onDeckPaths ∧ p ∉ s.demote) ?_ env.prevExclude st
    ⟨hmem, hdem⟩
  rintro s a ⟨h1, h2⟩
  refine ⟨phase2Step_onDeck_mono _ _ s a p h1, ?_⟩
  unfold phase2Step
  split_ifs <;> simp_all
  rintro rfl; simp_all

/-- Exact membership characterisation of the Phase 2 fold, for a previous
snapshot without duplicate lines (it is read from a Python `set`): the
demote list is the previous snapshot minus the wanted set, restricted to
existing, non-playing paths; the final snapshot re-adds exactly the
deferred playing paths. -/
theorem phase2_fold_spec (sessions : List String) (existsF : String → Bool)
    (prev : List String) : ∀ (B D : List String), prev.Nodup → ∀ p,
    (p ∈ (prev.foldl (phase2Step sessions existsF) ⟨B, D⟩).demote ↔
      p ∈ D ∨ (p ∈ prev ∧ existsF p = true ∧ p ∉ B ∧ basename p ∉ sessions)) ∧
    (p ∈ (prev.foldl (phase2Step sessions existsF) ⟨B, D⟩).onDeckPaths ↔
      p ∈ B ∨ (p ∈ prev ∧ existsF p = true ∧ p ∉ B ∧ basename p ∈ sessions)) := by
  induction prev with
  | nil => intro B D _ p; simp
  | cons a t ih =>
    intro B D hnd p
    obtain ⟨ha, hnd'⟩ := List.nodup_cons.mp hnd
    have hfold : (a :: t).foldl (phase2Step sessions existsF) ⟨B, D⟩
        = t.foldl (phase2Step sessions existsF)
            (phase2Step sessions existsF ⟨B, D⟩ a) := rfl
    rw [hfold]
    by_cases h1 : existsF a = false
    · have hstep : phase2Step sessions existsF ⟨B, D⟩ a = ⟨B, D⟩ := by
        unfold phase2Step; simp [h1]
      rw [hstep]
      have h := ih B D hnd' p
      rw [h.1, h.2]
      by_cases hpa : p = a
      · subst hpa; simp_all
      · simp [List.mem_cons, hpa]
    · by_cases h2 : a ∈ B
      · have hstep : phase2Step sessions existsF ⟨B, D⟩ a = ⟨B, D⟩ := by
          unfold phase2Step; simp [h1, h2]
        rw [hstep]
        have h := ih B D hnd' p
        rw [h.1, h.2]
        by_cases hpa : p = a
        · subst hpa; simp_all
        · simp [List.mem_cons, hpa]
      · by_cases h3 : basename a ∈ sessions
        · have hstep : phase2Step sessions existsF ⟨B, D⟩ a
              = ⟨insertPath B a, D⟩ := by
            unfold phase2Step; simp [h1, h2, h3]
          rw [hstep]
          have h := ih (insertPath B a) D hnd' p
          rw [h.1, h.2]
          by_cases hpa : p = a
          · subst hpa; simp_all [mem_insertPath_iff]
          · simp_all [mem_insertPath_iff, List.mem_cons, hpa]
        · have hstep : phase2Step sessions existsF ⟨B, D⟩ a
              = ⟨B, D ++ [a]⟩ := by
            unfold phase2Step; simp [h1, h2, h3]
          rw [hstep]
          have h := ih B (D ++ [a]) hnd' p
          rw [h.1, h.2]
          by_cases hpa : p = a
          · subst hpa
            simp_all [List.mem_append]
          · simp_all [List.mem_append, List.mem_cons, hpa]

theorem runModel_orders (rm : Bool) (env : RunEnv) :
    (runModel rm env).orders = (phase1 env).orders := rfl

theorem runModel_demote (rm : Bool) (env : RunEnv) :
    (runModel rm env).demote
      = (phase2 env ⟨(phase1 env).onDeckPaths, []⟩).demote := rfl

theorem runModel_snapshot (rm : Bool) (env : RunEnv) :
    (runModel rm env).snapshot
      = (phase2 env ⟨(phase1 env).onDeckPaths, []⟩).onDeckPaths := rfl

end EmbyCache

namespace EmbyCache

/-- C3: the demote list is exactly the previous snapshot minus the new
desired set (Phase 1's `current_on_deck_paths`), with vanished paths
silently dropped and playing paths deferred — excluded from demotion and
re-added to the new snapshot. -/
theorem c3_demote_is_snapshot_diff (env : RunEnv) (run_mode : Bool)
    (hnd : env.prevExclude.Nodup) (p : String) :
    (p ∈ (runModel run_mode env).demote ↔
      p ∈ env.prevExclude ∧ env.existsF p = true ∧
        p ∉ (phase1 env).onDeckPaths ∧ basename p ∉ env.sessions) ∧
    (p ∈ env.prevExclude → env.existsF p = true →
      p ∉ (phase1 env).onDeckPaths → basename p ∈ env.sessions →
      p ∈ (runModel run_mode env).snapshot) ∧
    (env.existsF p = false →
      p ∉ (runModel run_mode env).demote ∧
        (p ∈ (runModel run_mode env).snapshot ↔ p ∈ (phase1 env).onDeckPaths)) := by
  have h := phase2_fold_spec env.sessions env.existsF env.prevExclude
    (phase1 env).onDeckPaths [] hnd p
  rw [runModel_demote, runModel_snapshot]
  unfold phase2
  refine ⟨?_, ?_, ?_⟩
  · rw [h.1]; simp
  · intro h1 h2 h3 h4
    rw [h.2]
    exact Or.inr ⟨h1, h2, h3, h4⟩
  · intro hex
    constructor
    · rw [h.1]; simp [hex]
    · rw [h.2]; simp [hex]

/-- Concrete environment witnessing C3: one stale snapshot entry that
still exists and is not playing. -/
def c3Env : RunEnv :=
  { config := { cache_path := "/mnt/cache", array_path := "/mnt/user0",
                min_free_percent := 10, libraries := [] }
    onDeck := []
    sessions := []
    prevExclude := ["/mnt/cache/TV/old.mkv"]
    free_pct := 50
    existsF := fun s => s == "/mnt/cache/TV/old.mkv" }

theorem c3_demote_is_snapshot_diff_witness :
    "/mnt/cache/TV/old.mkv" ∈ (runModel true c3Env).demote :=
  ((c3_demote_is_snapshot_diff c3Env true (by decide)
    "/mnt/cache/TV/old.mkv").1).mpr (by decide)

/-- C10: the playback-skip test compares basenames only — any candidate or
snapshot path whose filename equals the basename of any playing item is
skipped in both the promote and the demote phase, even when it lies in a
different directory than the playing file. -/
theorem c10_basename_only_playback_skip
    (inst : List (List (Option String))) (env : RunEnv) (run_mode : Bool)
    (p q : String) (hq : ∃ ss ∈ inst, some q ∈ ss)
    (hsess : env.sessions = get_active_sessions inst)
    (hbn : basename p = basename q) :
    (∀ o ∈ (runModel run_mode env).orders, o.src ≠ p) ∧
    p ∉ (runModel run_mode env).demote := by
  have hb : basename p ∈ env.sessions := by
    rw [hsess, hbn]; exact mem_get_active_sessions inst q hq
  constructor
  · intro o ho hop
    have hsafe := phase1_orders_safe env o (by rwa [runModel_orders] at ho)
    rw [hop] at hsafe
    exact hsafe hb
  · intro hp
    exact phase2_demote_safe env ⟨(phase1 env).onDeckPaths, []⟩ (by simp) p
      (by rwa [runModel_demote] at hp) hb

/-- One playing session whose file sits in a directory unrelated to the
paths handled below. -/
def c10Inst : List (List (Option String)) := [[some "/media/Films/ep.mkv"]]

/-- Environment for the C10 witness: the snapshot entry shares only the
basename `ep.mkv` with the playing file. -/
def c10Env : RunEnv :=
  { config := { cache_path := "/mnt/cache", array_path := "/mnt/user0",
                min_free_percent := 10, libraries := [] }
    onDeck := [⟨1, "/mnt/user/TV/ShowA/ep.mkv", "RESUME"⟩]
    sessions := get_active_sessions c10Inst
    prevExclude := ["/mnt/cache/TV/ShowA/ep.mkv"]
    free_pct := 50
    existsF := fun _ => true }

theorem c10_basename_only_playback_skip_witness :
    (∀ o ∈ (runModel true c10Env).orders, o.src ≠ "/mnt/cache/TV/ShowA/ep.mkv") ∧
    "/mnt/cache/TV/ShowA/ep.mkv" ∉ (runModel true c10Env).demote :=
  c10_basename_only_playback_skip c10Inst c10Env true
    "/mnt/cache/TV/ShowA/ep.mkv" "/media/Films/ep.mkv"
    ⟨[some "/media/Films/ep.mkv"], by decide, by decide⟩ rfl (by decide)

/-- Helper for C5: a candidate that passes the library filter and carries
the `/mnt/user` prefix always lands (as its cache destination) in the
Phase 1 snapshot set, independently of residency. -/
theorem phase1_mem_cacheDst (cfg : RunConfig) (sessions : List String)
    (existsF : String → Bool) :
    ∀ (l : List OnDeckItem) (st : Phase1St) (it : OnDeckItem), it ∈ l →
      (cfg.libraries = [] ∨
        cfg.libraries.any (fun x => strContains it.src x) = true) →
      strContains it.src "/mnt/user" = true →
      pyReplace1 it.src "/mnt/user" cfg.cache_path
        ∈ (l.foldl (phase1Step cfg sessions existsF) st).onDeckPaths := by
  intro l
  induction l with
  | nil => intro st it hit; cases hit
  | cons a t ih =>
    intro st it hit hlib huser
    rcases List.mem_cons.mp hit with rfl | hit'
    · have hmem : pyReplace1 it.src "/mnt/user" cfg.cache_path
          ∈ (phase1Step cfg sessions existsF st it).onDeckPaths := by
        unfold phase1Step
        dsimp only
        rcases hlib with h | h <;>
          · split_ifs <;> simp_all [self_mem_insertPath]
      exact foldlInv _ (fun s => _ ∈ s.onDeckPaths)
        (fun s b hs => phase1Step_onDeck_mono cfg sessions existsF s b _ hs) t _ hmem
    · exact ih (phase1Step cfg sessions existsF st a) it hit' hlib huser

/-- Environment refuting C5: the free-space circuit breaker is tripped
(5% free against a 10% minimum), the candidate `/mnt/user/TV/a.mkv` is
still wanted and its cache copy exists. -/
def c5Env : RunEnv :=
  { config := { cache_path := "/mnt/cache", array_path := "/mnt/user0",
                min_free_percent := 10, libraries := [] }
    onDeck := [⟨1, "/mnt/user/TV/a.mkv", "RESUME"⟩]
    sessions := []
    prevExclude := ["/mnt/cache/TV/a.mkv"]
    free_pct := 5
    existsF := fun s => s == "/mnt/cache/TV/a.mkv" }

/-- C5 counterexample: with the circuit breaker tripped, a path that is in
the previous snapshot and still a candidate this run IS demoted — Phase 1
is skipped entirely, so `current_on_deck_paths` stays empty and the whole
previous snapshot becomes the demote set. -/
theorem c5_counterexample :
    (⟨1, "/mnt/user/TV/a.mkv", "RESUME"⟩ : OnDeckItem) ∈ c5Env.onDeck ∧
    pyReplace1 "/mnt/user/TV/a.mkv" "/mnt/user" c5Env.config.cache_path
      = "/mnt/cache/TV/a.mkv" ∧
    "/mnt/cache/TV/a.mkv" ∈ c5Env.prevExclude ∧
    "/mnt/cache/TV/a.mkv" ∈ (runModel true c5Env).demote := by
  refine ⟨by decide, by decide, by decide, by decide⟩

/-- C5 amended: when the circuit breaker is NOT tripped, a previous
snapshot entry that is still a candidate never appears in the demote set. -/
theorem c5_no_regret_without_circuit_breaker (env : RunEnv) (run_mode : Bool)
    (hfree : env.free_pct > env.config.min_free_percent)
    (it : OnDeckItem) (hit : it ∈ env.onDeck)
    (hlib : env.config.libraries = [] ∨
      env.config.libraries.any (fun l => strContains it.src l) = true)
    (huser : strContains it.src "/mnt/user" = true) :
    pyReplace1 it.src "/mnt/user" env.config.cache_path
      ∉ (runModel run_mode env).demote := by
  have h1 : pyReplace1 it.src "/mnt/user" env.config.cache_path
      ∈ (phase1 env).onDeckPaths := by
    unfold phase1
    rw [if_pos hfree]
    exact phase1_mem_cacheDst env.config env.sessions env.existsF env.onDeck
      ⟨[], []⟩ it hit hlib huser
  rw [runModel_demote]
  exact (phase2_base_not_demoted env ⟨(phase1 env).onDeckPaths, []⟩ _ h1 (by simp)).2

/-- The same environment as `c5Env` but with the circuit breaker off. -/
def c5EnvOk : RunEnv :=
  { config := { cache_path := "/mnt/cache", array_path := "/mnt/user0",
                min_free_percent := 10, libraries := [] }
    onDeck := [⟨1, "/mnt/user/TV/a.mkv", "RESUME"⟩]
    sessions := []
    prevExclude := ["/mnt/cache/TV/a.mkv"]
    free_pct := 50
    existsF := fun s => s == "/mnt/cache/TV/a.mkv" }

theorem c5_no_regret_without_circuit_breaker_witness :
    pyReplace1 "/mnt/user/TV/a.mkv" "/mnt/user" c5EnvOk.config.cache_path
      ∉ (runModel true c5EnvOk).demote :=
  c5_no_regret_without_circuit_breaker c5EnvOk true (by decide)
    ⟨1, "/mnt/user/TV/a.mkv", "RESUME"⟩ (by decide) (Or.inl rfl) (by decide)

end EmbyCache

namespace EmbyCache

/-! ### C8: preview mode performs no persistent mutation. -/

/-- Python `sorted` on a list of strings. -/
def sortedStrings (l : List String) : List String :=
  List.insertionSort (fun a b => a ≤ b) l

/-- The three text files embycache_collect.py can write at the end of a
run (lines 330-343). -/
structure CollectWrites where
  excludeWrite : Option (List String)
  a2cWrite : Option (List String)
  c2aWrite : Option (List String)

/-- The write gate of embycache_collect.py: `EXCLUDE_TXT` is written only
under `--run`; the two mover lists are always written. -/
def collect_write_gate (runFlag : Bool)
    (exclude_paths array2cache c2a : List String) : CollectWrites :=
  { excludeWrite := if runFlag then some (sortedStrings exclude_paths) else none
    a2cWrite := some (sortedStrings array2cache)
    c2aWrite := some (sortedStrings c2a) }

/-- C8: with `--run` absent, `run` executes no move, never invokes the
Unraid mover, writes neither snapshot nor origin map and skips directory
cleanup; `safe_move` without `--run` deletes nothing; collect leaves the
snapshot file untouched.  In enact mode the snapshot is written exactly
once, with the run's final `current_on_deck_paths`. -/
theorem c8_dry_run_writes_nothing (env : RunEnv) (s : SafeMoveEnv)
    (ex a2c c2a : List String) :
    (runModel false env).executedMoves = [] ∧
    (runModel false env).moverInvoked = none ∧
    (runModel false env).snapshotWrite = none ∧
    (runModel false env).originWrite = false ∧
    (runModel false env).cleanupRan = false ∧
    (runModel true env).snapshotWrite = some ((runModel true env).snapshot) ∧
    (collect_write_gate false ex a2c c2a).excludeWrite = none ∧
    (safe_move { s with runFlag := false }).srcDeleted = false ∧
    (safe_move { s with runFlag := false }).dstDeleted = false := by
  refine ⟨rfl, by simp [runModel], rfl, rfl, rfl, rfl, rfl, ?_, ?_⟩ <;>
    · unfold safe_move
      split_ifs <;> simp_all

end EmbyCache

namespace EmbyCache

/-! ### C4: `get_on_deck_extended` (embycache_run.py lines 229-277)

Per instance and per user the code first appends the user's resume items
and their follow-up episodes (all priority 1), then the user's favorite
episodes (priority 2), each guarded by `if f not in seen_paths`; at the
end the accumulated list is sorted by `(x[0], str(x[1]))`.  One user's
network results are abstracted as the two path lists in fetch order. -/

/-- What one user's API calls contribute, in traversal order: priority-1
resume/next-episode files, then priority-2 favorite files. -/
structure UserFetch where
  resumeFiles : List String
  favFiles : List String

/-- The exact order in which `(prio, file, reason)` triples are offered to
the `seen_paths` dedupe, over all instances and users. -/
def onDeckTraversal (users : List UserFetch) : List OnDeckItem :=
  (users.map (fun u =>
    u.resumeFiles.map (fun f => (⟨1, f, "RESUME"⟩ : OnDeckItem)) ++
    u.favFiles.map (fun f => (⟨2, f, "FAVORIT"⟩ : OnDeckItem)))).flatten

/-- The `if f not in seen_paths` guard around
`all_files_with_prio.append(...)` and `seen_paths.add(...)`. -/
def dedupeStep (st : List OnDeckItem × List String) (c : OnDeckItem) :
    List OnDeckItem × List String :=
  if c.src ∈ st.2 then st else (st.1 ++ [c], st.2 ++ [c.src])

/-- The final `sort(key=lambda x: (x[0], str(x[1])))` order. -/
def candLE (a b : OnDeckItem) : Prop :=
  a.prio < b.prio ∨ (a.prio = b.prio ∧ a.src ≤ b.src)

instance : DecidableRel candLE := fun a b => by unfold candLE; infer_instance

instance : IsTotal OnDeckItem candLE := by
  constructor
  intro a b
  unfold candLE
  rcases Nat.lt_trichotomy a.prio b.prio with h | h | h
  · exact Or.inl (Or.inl h)
  · rcases le_total a.src b.src with h2 | h2
    · exact Or.inl (Or.inr ⟨h, h2⟩)
    · exact Or.inr (Or.inr ⟨h.symm, h2⟩)
  · exact Or.inr (Or.inl h)

instance : IsTrans OnDeckItem candLE := by
  constructor
  intro a b c hab hbc
  unfold candLE at *
  rcases hab with h1 | ⟨h1, h1'⟩ <;> rcases hbc with h2 | ⟨h2, h2'⟩
  · exact Or.inl (h1.trans h2)
  · exact Or.inl (h2 ▸ h1)
  · exact Or.inl (h1 ▸ h2)
  · exact Or.inr ⟨h1.trans h2, h1'.trans h2'⟩

/-- `get_on_deck_extended`: first-seen dedupe over the traversal, then the
final sort. -/
def get_on_deck_extended (users : List UserFetch) : List OnDeckItem :=
  List.insertionSort candLE ((onDeckTraversal users).foldl dedupeStep ([], [])).1

/-- Recursive twin of the dedupe fold, for reasoning. -/
def dedupeRec : List OnDeckItem → List String → List OnDeckItem
  | [], _ => []
  | c :: t, seen =>
    if c.src ∈ seen then dedupeRec t seen else c :: dedupeRec t (seen ++ [c.src])

theorem dedupe_foldl_eq :
    ∀ (l : List OnDeckItem) (acc : List OnDeckItem) (seen : List String),
      (l.foldl dedupeStep (acc, seen)).1 = acc ++ dedupeRec l seen := by
  intro l
  induction l with
  | nil => intro acc seen; simp [dedupeRec]
  | cons c t ih =>
    intro acc seen
    show (t.foldl dedupeStep (dedupeStep (acc, seen) c)).1 = _
    by_cases h : c.src ∈ seen
    · have hstep : dedupeStep (acc, seen) c = (acc, seen) := by
        unfold dedupeStep; simp [h]
      rw [hstep, ih acc seen]
      simp only [dedupeRec]
      rw [if_pos h]
    · have hstep : dedupeStep (acc, seen) c = (acc ++ [c], seen ++ [c.src]) := by
        unfold dedupeStep; simp [h]
      rw [hstep, ih (acc ++ [c]) (seen ++ [c.src])]
      simp only [dedupeRec]
      rw [if_neg h]
      simp

/-- Every survivor of the dedupe is the first occurrence of its path. -/
theorem dedupeRec_first_occurrence :
    ∀ (l : List OnDeckItem) (seen : List String) (c : OnDeckItem),
      c ∈ dedupeRec l seen →
      c.src ∉ seen ∧ l.find? (fun d => d.src == c.src) = some c := by
  intro l
  induction l with
  | nil => intro seen c hc; cases hc
  | cons a t ih =>
    intro seen c hc
    unfold dedupeRec at hc
    by_cases h : a.src ∈ seen
    · rw [if_pos h] at hc
      obtain ⟨hns, hfind⟩ := ih seen c hc
      have hne : a.src ≠ c.src := fun he => hns (he ▸ h)
      exact ⟨hns, by rw [List.find?_cons_of_neg _ (by simpa using hne)]; exact hfind⟩
    · rw [if_neg h] at hc
      rcases List.mem_cons.mp hc with rfl | hc'
      · exact ⟨h, by rw [List.find?_cons_of_pos _ (by simp)]⟩
      · obtain ⟨hns, hfind⟩ := ih _ c hc'
        have hsplit : c.src ∉ seen ∧ c.src ≠ a.src := by
          simpa [List.mem_append] using hns
        have hne : a.src ≠ c.src := fun he => hsplit.2 he.symm
        exact ⟨hsplit.1,
          by rw [List.find?_cons_of_neg _ (by simpa using hne)]; exact hfind⟩

/-- Two users: the first has `x` among the favorites (priority 2), the
second resumes the same `x` (priority 1). -/
def c4Users : List UserFetch := [⟨[], ["x"]⟩, ⟨["x"], []⟩]

/-- C4 counterexample: the path `x` is offered with priority 2 before it
is offered with priority 1, and the first-seen dedupe keeps priority 2 —
the merged entry does NOT carry the lowest priority number seen. -/
theorem c4_counterexample :
    (⟨1, "x", "RESUME"⟩ : OnDeckItem) ∈ onDeckTraversal c4Users ∧
    get_on_deck_extended c4Users = [⟨2, "x", "FAVORIT"⟩] := by
  refine ⟨by decide, by decide⟩

/-- C4 amended: the merged entry for a path carries the priority of the
path's first occurrence in traversal order (within one user, resume items
precede favorites, so the lowest priority wins there; across users the
earlier occurrence wins regardless of priority), and the final list is
sorted by (priority ascending, path ascending). -/
theorem c4_first_seen_dedupe_and_sorted (users : List UserFetch) :
    (get_on_deck_extended users).Sorted candLE ∧
    ∀ c ∈ get_on_deck_extended users,
      (onDeckTraversal users).find? (fun d => d.src == c.src) = some c := by
  constructor
  · exact List.sorted_insertionSort candLE _
  · intro c hc
    have hmem : c ∈ ((onDeckTraversal users).foldl dedupeStep ([], [])).1 :=
      (List.perm_insertionSort candLE _).subset hc
    rw [dedupe_foldl_eq, List.nil_append] at hmem
    exact (dedupeRec_first_occurrence _ _ _ hmem).2

theorem c4_first_seen_dedupe_and_sorted_witness :
    (get_on_deck_extended c4Users).Sorted candLE ∧
    (onDeckTraversal c4Users).find? (fun d => d.src == "x")
      = some ⟨2, "x", "FAVORIT"⟩ :=
  ⟨(c4_first_seen_dedupe_and_sorted c4Users).1,
   (c4_first_seen_dedupe_and_sorted c4Users).2 ⟨2, "x", "FAVORIT"⟩ (by decide)⟩

end EmbyCache

namespace EmbyCache

/-! ### C7: empty-directory pruning never touches library-level roots
(`is_protected_root_folder`, `clean_empty_dirs`,
`cleanup_moved_source_dirs` in embycache_run.py).

Directory emptiness and `os.rmdir` success are time- and state-dependent,
so they are abstracted as an oracle receiving the directory and the list
of directories removed so far; the protection logic itself is embedded
exactly. -/

/-- `is_protected_root_folder` (embycache_run.py lines 51-69):
`Path(folder).relative_to(base)` has at most one component — the base
itself or a direct child ("maxdepth 1") — otherwise `ValueError` means
unprotected. -/
def is_protected_root_folder (folder_path base_path : String) : Bool :=
  match relPartsTo folder_path base_path with
  | some rel => rel.length ≤ 1
  | none => false

/-- Python `sorted(list, key=len, reverse=True)`: deepest paths first. -/
def sortByLenDesc (l : List String) : List String :=
  List.insertionSort (fun a b => b.length ≤ a.length) l

/-- Set-dedup of a string list, in first-seen order. -/
def dedupStrings (l : List String) : List String := l.foldl insertPath []

/-- `cleanup_moved_source_dirs` (embycache_run.py lines 98-143): collect
the existing parent directories of the moved files, deepest first; skip
protected roots; attempt `os.rmdir` (succeeds only on empty directories —
oracle `rmdirOk`), and on success also try the parent unless it is a
protected root.  Returns the list of directories actually removed. -/
def cleanup_moved_source_dirs (cache_base : String) (existsD : String → Bool)
    (rmdirOk : String → List String → Bool) (file_list : List String) :
    List String :=
  let dirs := sortByLenDesc (dedupStrings ((file_list.map dirname).filter existsD))
  dirs.foldl
    (fun removed d =>
      if is_protected_root_folder d cache_base then removed
      else if rmdirOk d removed then
        let removed1 := removed ++ [d]
        let parent := dirname d
        if is_protected_root_folder parent cache_base then removed1
        else if rmdirOk parent removed1 then removed1 ++ [parent]
        else removed1
      else removed)
    []

/-- `clean_empty_dirs` (embycache_run.py lines 71-96): bottom-up walk of
the array base (`walk` is the `os.walk(..., topdown=False)` order), with
the base itself, the config-mapped shares and every maxdepth-1 directory
skipped; empty directories (oracle `emptyOk`) are removed. -/
def clean_empty_dirs (run_mode : Bool) (base_path : String)
    (protectedDirs : List String) (walk : List String)
    (emptyOk : String → List String → Bool) : List String :=
  if run_mode = false then []
  else
    walk.foldl
      (fun removed root =>
        if root = base_path then removed
        else if root ∈ protectedDirs then removed
        else if is_protected_root_folder root base_path then removed
        else if emptyOk root removed then removed ++ [root]
        else removed)
      []

/-- C7: a directory at most one level below a tier root is never removed
by either pruning pass, whatever the filesystem oracles report. -/
theorem c7_protected_roots_never_pruned (cache_base array_base : String)
    (existsD : String → Bool) (rmdirOk emptyOk : String → List String → Bool)
    (file_list protectedDirs walk : List String) (run_mode : Bool) (d : String) :
    (is_protected_root_folder d cache_base = true →
      d ∉ cleanup_moved_source_dirs cache_base existsD rmdirOk file_list) ∧
    (is_protected_root_folder d array_base = true →
      d ∉ clean_empty_dirs run_mode array_base protectedDirs walk emptyOk) := by
  constructor
  · intro hprot hd
    have hall : ∀ x ∈ cleanup_moved_source_dirs cache_base existsD rmdirOk file_list,
        is_protected_root_folder x cache_base = false := by
      unfold cleanup_moved_source_dirs
      refine foldlInv _
        (fun removed => ∀ x ∈ removed,
          is_protected_root_folder x cache_base = false) ?_ _ _ (by simp)
      intro removed a hrem
      dsimp only
      split_ifs with h1 h2 h3 h4 <;> intro x hx <;>
        (try simp only [List.mem_append, List.mem_singleton] at hx)
      · exact hrem x hx
      · rcases hx with hx | rfl
        · exact hrem x hx
        · exact Bool.eq_false_iff.mpr h1
      · rcases hx with (hx | rfl) | rfl
        · exact hrem x hx
        · exact Bool.eq_false_iff.mpr h1
        · exact Bool.eq_false_iff.mpr h3
      · rcases hx with hx | rfl
        · exact hrem x hx
        · exact Bool.eq_false_iff.mpr h1
      · exact hrem x hx
    have hfalse := hall d hd
    rw [hprot] at hfalse
    cases hfalse
  · intro hprot hd
    have hall : ∀ x ∈ clean_empty_dirs run_mode array_base protectedDirs walk emptyOk,
        is_protected_root_folder x array_base = false := by
      unfold clean_empty_dirs
      split_ifs with hrm
      · simp
      · refine foldlInv _
          (fun removed => ∀ x ∈ removed,
            is_protected_root_folder x array_base = false) ?_ _ _ (by simp)
        intro removed a hrem
        dsimp only
        split_ifs with h1 h2 h3 h4 <;> intro x hx <;>
          (try simp only [List.mem_append, List.mem_singleton] at hx)
        · exact hrem x hx
        · exact hrem x hx
        · exact hrem x hx
        · rcases hx with hx | rfl
          · exact hrem x hx
          · exact Bool.eq_false_iff.mpr h3
        · exact hrem x hx
    have hfalse := hall d hd
    rw [hprot] at hfalse
    cases hfalse

/-- Witness oracles for C7: everything exists, everything is empty. -/
def c7Files : List String := ["/mnt/cache/Serien/Show/S01/e1.mkv"]

theorem c7_protected_roots_never_pruned_witness :
    "/mnt/cache/Serien" ∉ cleanup_moved_source_dirs "/mnt/cache"
        (fun _ => true) (fun _ _ => true) c7Files ∧
    "/mnt/user0/Filme" ∉ clean_empty_dirs true "/mnt/user0" []
        ["/mnt/user0/Filme"] (fun _ _ => true) :=
  ⟨(c7_protected_roots_never_pruned "/mnt/cache" "/mnt/user0" (fun _ => true)
      (fun _ _ => true) (fun _ _ => true) c7Files [] ["/mnt/user0/Filme"] true
      "/mnt/cache/Serien").1 (by decide),
   (c7_protected_roots_never_pruned "/mnt/cache" "/mnt/user0" (fun _ => true)
      (fun _ _ => true) (fun _ _ => true) c7Files [] ["/mnt/user0/Filme"] true
      "/mnt/user0/Filme").2 (by decide)⟩

end EmbyCache

namespace EmbyCache

/-! ### The standalone mover (scripts/embycache_mover.py): session
matching and job-list construction.

`SESSION_PATHS` is fetched once at module load; `is_same_media` compares
the basename and then, when determinable, the library-relative path after
mapping container paths to host paths. -/

/-- The settings the mover reads (source names: `CACHE_PREFIX`,
`ARRAY_PREFIX`, `USER_PREFIX`, `EMBY_SOURCE`, `REAL_SOURCE`,
`NAS_FOLDERS`, `LIB_MAP`). -/
structure MoverCfg where
  cachePref : String
  arrayPref : String
  userPref : String
  embySource : String
  realSource : String
  nasFolders : List String
  libMap : List (String × String)

/-- The `for nas in NAS_FOLDERS: idx = s.find("/" + nas + "/")` loop:
the tail of `s` after the first matching library folder. -/
def findNasRel (nasFolders : List String) (s : String) : Option String :=
  match nasFolders with
  | [] => none
  | nas :: rest =>
    match strFind s ("/" ++ nas ++ "/") with
    | some idx => some (String.mk (s.data.drop (idx + nas.length + 2)))
    | none => findNasRel rest s

/-- `pathlib.Path(s).parts` for an absolute POSIX path (leading `"/"`
part included). -/
def pyPartsAbs (s : String) : List String :=
  if pyStartsWith s "/" then "/" :: partsOf s else partsOf s

/-- Python `s.strip("/")`. -/
def stripSlashes (s : String) : String :=
  String.mk (((s.data.dropWhile (· = '/')).reverse.dropWhile (· = '/')).reverse)

/-- The `if str(EMBY_SOURCE) in playing:` block of `is_same_media`
(lines 147-161): identify the library segment after the container root and
rewrite `EMBY_SOURCE/<lib>` to `REAL_SOURCE/<mapped>`; any failure to
identify or map the library leaves the path unchanged. -/
def mapEmbyPlaying (cfg : MoverCfg) (playing : String) : String :=
  if strContains playing cfg.embySource then
    let parts := pyPartsAbs playing
    let lib? :=
      if parts.length ≥ 3 ∧ parts.get? 0 = some "/" ∧
          parts.get? 1 = some (stripSlashes cfg.embySource) then parts.get? 2
      else
        match relPartsTo playing cfg.embySource with
        | some (l :: _) => some l
        | _ => none
    match lib? with
    | some lib =>
      match cfg.libMap.lookup lib with
      | some mapped =>
        pyReplace1 playing (cfg.embySource ++ "/" ++ lib)
          (cfg.realSource ++ "/" ++ mapped)
      | none => playing
    | none => playing
  else playing

/-- `is_same_media` (lines 125-173): basename must match; then the
library-relative paths are compared when both can be determined, and a
mismatch means NOT the same media — a basename match alone is accepted
only when no library folder is recognisable on one of the two sides. -/
def is_same_media (cfg : MoverCfg) (src_host playing_path : String) : Bool :=
  if basename src_host ≠ basename playing_path then false
  else
    let host_user :=
      pyReplace1 (pyReplace1 src_host cfg.cachePref cfg.userPref)
        "/mnt/user0/" cfg.userPref
    match findNasRel cfg.nasFolders host_user with
    | none => true
    | some rel_host =>
      match findNasRel cfg.nasFolders (mapEmbyPlaying cfg playing_path) with
      | none => true
      | some rel_play => rel_play = rel_host

/-- `is_playing` (lines 176-180), over the module-level `SESSION_PATHS`. -/
def is_playing (cfg : MoverCfg) (sessionPaths : List String) (src : String) :
    Bool :=
  sessionPaths.any (fun p => is_same_media cfg src p)

/-- `map_array_to_cache` (lines 194-204). -/
def map_array_to_cache (cfg : MoverCfg) (p : String) : String × String :=
  let dst :=
    if pyStartsWith p cfg.arrayPref then pyReplace1 p cfg.arrayPref cfg.cachePref
    else if pyStartsWith p cfg.userPref then pyReplace1 p cfg.userPref cfg.cachePref
    else p
  (p, pyParent dst)

/-- `map_cache_to_array` (lines 207-218). -/
def map_cache_to_array (cfg : MoverCfg) (p : String) : String × String :=
  let src :=
    if pyStartsWith p cfg.arrayPref then pyReplace1 p cfg.arrayPref cfg.cachePref
    else if pyStartsWith p cfg.userPref then pyReplace1 p cfg.userPref cfg.cachePref
    else p
  (src, pyParent p)

/-- One iteration of the job-list loops (lines 280-304): map the entry,
require the source to be a file, skip currently playing media. -/
def jobStep (cfg : MoverCfg) (sessionPaths : List String)
    (isFile : String → Bool) (mapper : String → String × String)
    (jobs : List (String × String)) (p : String) : List (String × String) :=
  let src := (mapper p).1
  let dst := (mapper p).2
  if isFile src = false then jobs
  else if is_playing cfg sessionPaths src then jobs
  else jobs ++ [(src, dst)]

/-- The job-list construction over one of the two TXT lists. -/
def buildJobs (cfg : MoverCfg) (sessionPaths : List String)
    (isFile : String → Bool) (mapper : String → String × String)
    (raw : List String) : List (String × String) :=
  raw.foldl (jobStep cfg sessionPaths isFile mapper) []

/-- Mover settings of the C2 counterexample: one library folder `TV`. -/
def c2Cfg : MoverCfg :=
  { cachePref := "/mnt/cache/", arrayPref := "/mnt/user0/",
    userPref := "/mnt/user/", embySource := "/data",
    realSource := "/mnt/user", nasFolders := ["TV"],
    libMap := [("Serien", "TV")] }

/-- One active session: `ShowB`'s `ep.mkv` is playing. -/
def c2Sessions : List String := ["/mnt/user/TV/ShowB/ep.mkv"]

/-- C2 counterexample: `ShowA/ep.mkv` has the same basename as the
playing `ShowB/ep.mkv`, yet the mover still emits the demote job for it —
`is_same_media` rejects the pair because the library-relative paths
differ, so a basename match alone does not suppress the order. -/
theorem c2_counterexample :
    basename "/mnt/cache/TV/ShowA/ep.mkv"
      = basename "/mnt/user/TV/ShowB/ep.mkv" ∧
    ("/mnt/cache/TV/ShowA/ep.mkv", "/mnt/user0/TV/ShowA")
      ∈ buildJobs c2Cfg c2Sessions (fun _ => true) (map_cache_to_array c2Cfg)
          ["/mnt/user0/TV/ShowA/ep.mkv"] := by
  refine ⟨by decide, by decide⟩

/-- C2 amended: in embycache_run.py no promote and no demote order is
emitted for a path whose basename matches an active session; the
standalone mover, however, only guarantees that every emitted job is for
media `is_playing` rejects — there a basename match suppresses the job
only when the library-relative paths also agree or cannot be determined. -/
theorem c2_playback_safety_per_component (env : RunEnv) (run_mode : Bool)
    (cfg : MoverCfg) (sessionPaths : List String) (isFile : String → Bool)
    (mapper : String → String × String) (raw : List String) :
    (∀ o ∈ (runModel run_mode env).orders, basename o.src ∉ env.sessions) ∧
    (∀ p ∈ (runModel run_mode env).demote, basename p ∉ env.sessions) ∧
    (∀ j ∈ buildJobs cfg sessionPaths isFile mapper raw,
      is_playing cfg sessionPaths j.1 = false) := by
  refine ⟨?_, ?_, ?_⟩
  · intro o ho
    exact phase1_orders_safe env o (by rwa [runModel_orders] at ho)
  · intro p hp
    exact phase2_demote_safe env ⟨(phase1 env).onDeckPaths, []⟩ (by simp) p
      (by rwa [runModel_demote] at hp)
  · unfold buildJobs
    refine foldlInv _
      (fun jobs : List (String × String) =>
        ∀ j ∈ jobs, is_playing cfg sessionPaths j.1 = false)
      ?_ _ _ (by simp)
    intro jobs p hj
    unfold jobStep
    dsimp only
    split_ifs with h1 h2 <;> intro j hjm <;>
      (try simp only [List.mem_append, List.mem_singleton] at hjm)
    · exact hj j hjm
    · exact hj j hjm
    · rcases hjm with hjm | rfl
      · exact hj j hjm
      · exact Bool.eq_false_iff.mpr h2

theorem c2_playback_safety_per_component_witness :
    (∀ o ∈ (runModel true c10Env).orders,
      basename o.src ∉ c10Env.sessions) ∧
    is_playing c2Cfg c2Sessions "/mnt/cache/TV/ShowA/ep.mkv" = false :=
  ⟨(c2_playback_safety_per_component c10Env true c2Cfg c2Sessions
      (fun _ => true) (map_cache_to_array c2Cfg)
      ["/mnt/user0/TV/ShowA/ep.mkv"]).1,
   (c2_playback_safety_per_component c10Env true c2Cfg c2Sessions
      (fun _ => true) (map_cache_to_array c2Cfg)
      ["/mnt/user0/TV/ShowA/ep.mkv"]).2.2
      ("/mnt/cache/TV/ShowA/ep.mkv", "/mnt/user0/TV/ShowA") (by decide)⟩

end EmbyCache

namespace EmbyCache

/-! ### C9: timing of the free-space and session checks in the mover.

The observable events of one mover run, in program order: the single
`session_paths()` call at module load (line 121), then — only under
`--run` — for each job, `safe_move`'s free-space check followed by the
rsync copy when the check passes and rsync is available.  Workers
interleave job traces arbitrarily, but the properties below (event
counts, per-job check-before-copy order) are invariant under any
interleaving of whole-job subtraces, so the sequential order is used. -/

inductive MoverEvent where
  | sessionFetch : MoverEvent
  | freeCheck : String → MoverEvent
  | copy : String → MoverEvent
deriving DecidableEq

/-- The events of one `safe_move` call under `--run` (lines 222-241):
the free-space check always happens; the copy subprocess runs only when
space suffices and rsync is found. -/
def safeMoveTrace (sizeF freeF : String → Nat) (rsyncFound : Bool)
    (j : String × String) : List MoverEvent :=
  if freeF j.2 < sizeF j.1 then [MoverEvent.freeCheck j.1]
  else if rsyncFound then [MoverEvent.freeCheck j.1, MoverEvent.copy j.1]
  else [MoverEvent.freeCheck j.1]

/-- The whole mover run: one session fetch at module load, then (with
`--run` only, line 316 exits otherwise) the A2C batch and the C2A batch. -/
def moverTrace (cfg : MoverCfg) (sessionPaths : List String)
    (isFile : String → Bool) (sizeF freeF : String → Nat)
    (rsyncFound : Bool) (a2c c2a : List String) (runFlag : Bool) :
    List MoverEvent :=
  MoverEvent.sessionFetch ::
    (if runFlag then
      ((buildJobs cfg sessionPaths isFile (map_array_to_cache cfg) a2c).map
          (safeMoveTrace sizeF freeF rsyncFound)).flatten ++
      ((buildJobs cfg sessionPaths isFile (map_cache_to_array cfg) c2a).map
          (safeMoveTrace sizeF freeF rsyncFound)).flatten
    else [])

/-- Number of copy subprocesses started in a trace. -/
def countCopies (tr : List MoverEvent) : Nat :=
  (tr.filter (fun e => match e with | MoverEvent.copy _ => true | _ => false)).length

/-- Number of session fetches in a trace. -/
def countFetches (tr : List MoverEvent) : Nat :=
  tr.count MoverEvent.sessionFetch

/-- A two-job enact run used against C9. -/
def c9Trace : List MoverEvent :=
  moverTrace c2Cfg [] (fun _ => true) (fun _ => 1) (fun _ => 10) true
    [] ["/mnt/user0/TV/A/a.mkv", "/mnt/user0/TV/A/b.mkv"] true

/-- C9 counterexample: a run with two copies contains a single session
fetch, so a fresh active-session check before every copy is impossible —
the session list is fetched once at module load and reused. -/
theorem c9_counterexample :
    countCopies c9Trace = 2 ∧ countFetches c9Trace = 1 ∧
    ¬ countCopies c9Trace ≤ countFetches c9Trace := by
  refine ⟨by decide, by decide, by decide⟩

theorem sublist_flatten_of_mem {α : Type _} {l : List α} {L : List (List α)}
    (h : l ∈ L) : l.Sublist L.flatten := by
  induction L with
  | nil => cases h
  | cons x t ih =>
    rcases List.mem_cons.mp h with rfl | h'
    · rw [List.flatten_cons]
      exact List.sublist_append_left l t.flatten
    · rw [List.flatten_cons]
      exact (ih h').trans (List.sublist_append_right x t.flatten)

theorem copy_in_safeMoveTrace (sizeF freeF : String → Nat) (rsyncFound : Bool)
    (j : String × String) (s : String)
    (h : MoverEvent.copy s ∈ safeMoveTrace sizeF freeF rsyncFound j) :
    safeMoveTrace sizeF freeF rsyncFound j
      = [MoverEvent.freeCheck s, MoverEvent.copy s] := by
  unfold safeMoveTrace at h ⊢
  split_ifs at h ⊢ <;> simp_all

theorem fetch_notin_safeMoveTrace (sizeF freeF : String → Nat)
    (rsyncFound : Bool) (j : String × String) :
    MoverEvent.sessionFetch ∉ safeMoveTrace sizeF freeF rsyncFound j := by
  unfold safeMoveTrace
  split_ifs <;> simp

/-- C9 amended: in every mover run the destination free-space check is
performed inside `safe_move`, per operation, before that operation's
copy; the active-session check, by contrast, happens exactly once per
run — at module load — and its result is reused for the whole run. -/
theorem c9_fresh_free_check_cached_sessions (cfg : MoverCfg)
    (sessionPaths : List String) (isFile : String → Bool)
    (sizeF freeF : String → Nat) (rsyncFound : Bool)
    (a2c c2a : List String) (runFlag : Bool) :
    countFetches (moverTrace cfg sessionPaths isFile sizeF freeF rsyncFound
      a2c c2a runFlag) = 1 ∧
    ∀ s, MoverEvent.copy s ∈ moverTrace cfg sessionPaths isFile sizeF freeF
        rsyncFound a2c c2a runFlag →
      List.Sublist [MoverEvent.freeCheck s, MoverEvent.copy s]
        (moverTrace cfg sessionPaths isFile sizeF freeF rsyncFound
          a2c c2a runFlag) := by
  constructor
  · unfold countFetches moverTrace
    rw [List.count_cons_self]
    have hz : ∀ (L : List (List MoverEvent)),
        (∀ l ∈ L, MoverEvent.sessionFetch ∉ l) →
        L.flatten.count MoverEvent.sessionFetch = 0 := by
      intro L hL
      rw [List.count_eq_zero]
      intro hmem
      obtain ⟨l, hl, hml⟩ := List.mem_flatten.mp hmem
      exact hL l hl hml
    split_ifs
    · rw [List.count_append, hz _ ?_, hz _ ?_] <;>
        · intro l hl
          obtain ⟨j, _, rfl⟩ := List.mem_map.mp hl
          exact fetch_notin_safeMoveTrace sizeF freeF rsyncFound j
    · simp
  · intro s hs
    unfold moverTrace at hs ⊢
    rcases List.mem_cons.mp hs with he | hs'
    · cases he
    · refine List.Sublist.trans ?_ (List.sublist_cons_self _ _)
      split_ifs at hs' ⊢ with hrun
      · rcases List.mem_append.mp hs' with hmem | hmem <;>
        · obtain ⟨l, hl, hml⟩ := List.mem_flatten.mp hmem
          obtain ⟨j, hj, rfl⟩ := List.mem_map.mp hl
          have heq := copy_in_safeMoveTrace sizeF freeF rsyncFound j s hml
          have hsub := sublist_flatten_of_mem hl
          rw [heq] at hsub
          first
            | exact hsub.trans (List.sublist_append_left _ _)
            | exact hsub.trans (List.sublist_append_right _ _)
      · cases hs'

theorem c9_fresh_free_check_cached_sessions_witness :
    countFetches c9Trace = 1 ∧
    List.Sublist
      [MoverEvent.freeCheck "/mnt/cache/TV/A/a.mkv",
       MoverEvent.copy "/mnt/cache/TV/A/a.mkv"] c9Trace :=
  ⟨(c9_fresh_free_check_cached_sessions c2Cfg [] (fun _ => true) (fun _ => 1)
      (fun _ => 10) true [] ["/mnt/user0/TV/A/a.mkv", "/mnt/user0/TV/A/b.mkv"]
      true).1,
   (c9_fresh_free_check_cached_sessions c2Cfg [] (fun _ => true) (fun _ => 1)
      (fun _ => 10) true [] ["/mnt/user0/TV/A/a.mkv", "/mnt/user0/TV/A/b.mkv"]
      true).2 "/mnt/cache/TV/A/a.mkv" (by decide)⟩

end EmbyCache

namespace EmbyCache

/-! ### C6: the second run over the snapshot and residency produced by a
successfully executed first run plans nothing.

`execExists` is the residency after the first run's orders were executed
and verified: every promote destination exists, every promote source and
every demoted cache path is gone, everything else is as before ("no other
change in residency"). -/

/-- The array-tier source path Phase 1 derives for a candidate. -/
def arrOf (cfg : RunConfig) (it : OnDeckItem) : String :=
  pyReplace1 it.src "/mnt/user" cfg.array_path

/-- The cache-tier destination path Phase 1 derives for a candidate. -/
def cacheOf (cfg : RunConfig) (it : OnDeckItem) : String :=
  pyReplace1 it.src "/mnt/user" cfg.cache_path

/-- The exact (state-independent) condition under which Phase 1 emits a
promote order for a candidate. -/
def p1Emits (cfg : RunConfig) (sessions : List String) (existsF : String → Bool)
    (it : OnDeckItem) : Prop :=
  ¬(cfg.libraries ≠ [] ∧
      ¬ cfg.libraries.any (fun l => strContains it.src l) = true) ∧
  strContains it.src "/mnt/user" = true ∧
  existsF (arrOf cfg it) = true ∧
  existsF (cacheOf cfg it) = false ∧
  basename it.src ∉ sessions

/-- Residency after executing the orders and demotes of a run on top of
residency `E`. -/
def execExists (E : String → Bool) (orders : List MoveOrder)
    (dem : List String) : String → Bool := fun q =>
  if q ∈ orders.map (fun o => o.cacheDst) then true
  else if q ∈ orders.map (fun o => o.arrSrc) then false
  else if q ∈ dem then false
  else E q

theorem phase1Step_orders_mono (cfg : RunConfig) (sessions : List String)
    (existsF : String → Bool) (st : Phase1St) (it : OnDeckItem) (o : MoveOrder)
    (h : o ∈ st.orders) : o ∈ (phase1Step cfg sessions existsF st it).orders := by
  unfold phase1Step
  dsimp only
  split_ifs <;> simp_all

/-- A step that does not meet the emit condition leaves the order list
unchanged. -/
theorem phase1Step_orders_of_not (cfg : RunConfig) (sessions : List String)
    (existsF : String → Bool) (st : Phase1St) (it : OnDeckItem)
    (h : ¬ p1Emits cfg sessions existsF it) :
    (phase1Step cfg sessions existsF st it).orders = st.orders := by
  unfold phase1Step
  dsimp only
  split_ifs with hA hB hC hD
  · rfl
  · rfl
  · exact absurd ⟨hA, hB, hC.1, hC.2, hD⟩ h
  · rfl
  · rfl

theorem phase1_fold_orders_nil (cfg : RunConfig) (sessions : List String)
    (existsF : String → Bool) :
    ∀ (l : List OnDeckItem) (st : Phase1St),
      (∀ it ∈ l, ¬ p1Emits cfg sessions existsF it) →
      (l.foldl (phase1Step cfg sessions existsF) st).orders = st.orders := by
  intro l
  induction l with
  | nil => intro st _; rfl
  | cons a t ih =>
    intro st h
    have hstep := phase1Step_orders_of_not cfg sessions existsF st a
      (h a (List.mem_cons_self a t))
    have := ih (phase1Step cfg sessions existsF st a)
      (fun it hit => h it (List.mem_cons_of_mem a hit))
    rw [List.foldl_cons, this, hstep]

/-- Every order produced by the Phase 1 fold is either inherited from the
seed state or the order of a candidate meeting the emit condition. -/
theorem phase1_fold_orders_shape (cfg : RunConfig) (sessions : List String)
    (existsF : String → Bool) :
    ∀ (l : List OnDeckItem) (st : Phase1St) (o : MoveOrder),
      o ∈ (l.foldl (phase1Step cfg sessions existsF) st).orders →
      o ∈ st.orders ∨ ∃ it ∈ l, p1Emits cfg sessions existsF it ∧
        o = ⟨it.src, arrOf cfg it, cacheOf cfg it⟩ := by
  intro l
  induction l with
  | nil => intro st o ho; exact Or.inl ho
  | cons a t ih =>
    intro st o ho
    rcases ih (phase1Step cfg sessions existsF st a) o ho with hstep | ⟨it, hit, hem, heq⟩
    · revert hstep
      unfold phase1Step
      dsimp only
      split_ifs with hA hB hC hD <;> intro hstep <;>
        (try exact Or.inl hstep)
      rcases List.mem_append.mp hstep with hstep | hstep
      · exact Or.inl hstep
      · refine Or.inr ⟨a, List.mem_cons_self a t, ⟨hA, hB, hC.1, hC.2, hD⟩, ?_⟩
        simpa [arrOf, cacheOf] using List.mem_singleton.mp hstep
    · exact Or.inr ⟨it, List.mem_cons_of_mem a hit, hem, heq⟩

/-- Conversely, a candidate meeting the emit condition always gets its
order into the fold result. -/
theorem phase1_fold_orders_complete (cfg : RunConfig) (sessions : List String)
    (existsF : String → Bool) :
    ∀ (l : List OnDeckItem) (st : Phase1St) (it : OnDeckItem), it ∈ l →
      p1Emits cfg sessions existsF it →
      (⟨it.src, arrOf cfg it, cacheOf cfg it⟩ : MoveOrder)
        ∈ (l.foldl (phase1Step cfg sessions existsF) st).orders := by
  intro l
  induction l with
  | nil => intro st it hit; cases hit
  | cons a t ih =>
    intro st it hit hem
    rcases List.mem_cons.mp hit with rfl | hit'
    · have hmem : (⟨it.src, arrOf cfg it, cacheOf cfg it⟩ : MoveOrder)
          ∈ (phase1Step cfg sessions existsF st it).orders := by
        obtain ⟨hA, hB, hC1, hC2, hD⟩ := hem
        unfold phase1Step
        dsimp only
        rw [if_neg hA, if_pos hB, if_pos ⟨hC1, hC2⟩, if_neg hD]
        simp [arrOf, cacheOf]
      exact foldlInv _ (fun s => _ ∈ s.orders)
        (fun s b hs => phase1Step_orders_mono cfg sessions existsF s b _ hs)
        t _ hmem
    · exact ih (phase1Step cfg sessions existsF st a) it hit' hem

/-- The snapshot side of a Phase 1 step depends only on the accumulated
snapshot set, not on residency or sessions. -/
theorem phase1Step_onDeckPaths_eq (cfg : RunConfig) (sessions : List String)
    (existsF : String → Bool) (st : Phase1St) (it : OnDeckItem) :
    (phase1Step cfg sessions existsF st it).onDeckPaths =
      if cfg.libraries ≠ [] ∧
          ¬ cfg.libraries.any (fun l => strContains it.src l) = true then
        st.onDeckPaths
      else if strContains it.src "/mnt/user" = true then
        insertPath st.onDeckPaths (cacheOf cfg it)
      else insertPath st.onDeckPaths it.src := by
  unfold phase1Step
  dsimp only
  split_ifs <;> rfl

theorem phase1_fold_onDeck_congr (cfg : RunConfig) (s1 s2 : List String)
    (e1 e2 : String → Bool) :
    ∀ (l : List OnDeckItem) (st1 st2 : Phase1St),
      st1.onDeckPaths = st2.onDeckPaths →
      (l.foldl (phase1Step cfg s1 e1) st1).onDeckPaths
        = (l.foldl (phase1Step cfg s2 e2) st2).onDeckPaths := by
  intro l
  induction l with
  | nil => intro st1 st2 h; exact h
  | cons a t ih =>
    intro st1 st2 h
    refine ih _ _ ?_
    rw [phase1Step_onDeckPaths_eq, phase1Step_onDeckPaths_eq, h]

/-- Phase 2 demotes only paths outside the snapshot set it started with. -/
theorem phase2_demote_shape (env : RunEnv) (st0 : Phase2St) :
    ∀ q ∈ (phase2 env st0).demote, q ∈ st0.demote ∨ q ∉ st0.onDeckPaths := by
  have h := foldlInv (phase2Step env.sessions env.existsF)
    (fun st => (∀ q ∈ st.demote, q ∈ st0.demote ∨ q ∉ st0.onDeckPaths) ∧
      (∀ q ∈ st0.onDeckPaths, q ∈ st.onDeckPaths))
    ?_ env.prevExclude st0 ⟨fun q hq => Or.inl hq, fun q hq => hq⟩
  · exact h.1
  · rintro st a ⟨h1, h2⟩
    constructor
    · intro q hq
      revert hq
      unfold phase2Step
      split_ifs with hx hm hp <;> intro hq <;>
        (try exact h1 q hq)
      rcases List.mem_append.mp hq with hq | hq
      · exact h1 q hq
      · rw [List.mem_singleton] at hq
        subst hq
        exact Or.inr (fun hmem => hm (h2 q hmem))
    · intro q hq
      exact phase2Step_onDeck_mono env.sessions env.existsF st a q (h2 q hq)

/-- Phase 2 only ever adds playing paths to the snapshot set. -/
theorem phase2_onDeck_shape (env : RunEnv) (st0 : Phase2St) :
    ∀ q ∈ (phase2 env st0).onDeckPaths,
      q ∈ st0.onDeckPaths ∨ basename q ∈ env.sessions := by
  refine foldlInv (phase2Step env.sessions env.existsF)
    (fun st => ∀ q ∈ st.onDeckPaths,
      q ∈ st0.onDeckPaths ∨ basename q ∈ env.sessions)
    ?_ env.prevExclude st0 (fun q hq => Or.inl hq)
  intro st a h q hq
  revert hq
  unfold phase2Step
  split_ifs with hx hm hp <;> intro hq <;> (try exact h q hq)
  rcases (mem_insertPath_iff _ _ _).mp hq with hq | rfl
  · exact h q hq
  · exact Or.inr hp

/-- When every previous-snapshot line is either still wanted or playing,
Phase 2 demotes nothing. -/
theorem phase2_fold_demote_nil (sessions : List String) (existsF : String → Bool) :
    ∀ (prev : List String) (B : List String) (st : Phase2St),
      (∀ q ∈ B, q ∈ st.onDeckPaths) → st.demote = [] →
      (∀ p ∈ prev, p ∈ B ∨ basename p ∈ sessions) →
      (prev.foldl (phase2Step sessions existsF) st).demote = [] := by
  intro prev
  induction prev with
  | nil => intro B st _ hd _; exact hd
  | cons a t ih =>
    intro B st hB hd hall
    refine ih B (phase2Step sessions existsF st a) ?_ ?_
      (fun p hp => hall p (List.mem_cons_of_mem a hp))
    · intro q hq
      exact phase2Step_onDeck_mono sessions existsF st a q (hB q hq)
    · unfold phase2Step
      split_ifs with hx hm hp
      · exact hd
      · exact hd
      · exact hd
      · exfalso
        rcases hall a (List.mem_cons_self a t) with hmem | hply
        · exact hm (hB a hmem)
        · exact hp hply

end EmbyCache

namespace EmbyCache

/-- C6: planning is idempotent — a second run over the snapshot written by
the first run and the residency produced by executing the first run's
orders (and nothing else changed: same candidates, same sessions, same
free-space reading, and array/cache tier paths distinct) emits zero
promote orders and zero demote orders. -/
theorem c6_second_run_plans_nothing (env : RunEnv) (rm1 rm2 : Bool)
    (hdisj : ∀ it1 ∈ env.onDeck, ∀ it2 ∈ env.onDeck,
      arrOf env.config it1 ≠ cacheOf env.config it2)
    (env2 : RunEnv)
    (henv2 : env2 = { env with
      prevExclude := (runModel rm1 env).snapshot
      existsF := execExists env.existsF (runModel rm1 env).orders
        (runModel rm1 env).demote }) :
    (runModel rm2 env2).orders = [] ∧ (runModel rm2 env2).demote = [] := by
  subst henv2
  have hB2 : (phase1 { env with
      prevExclude := (runModel rm1 env).snapshot
      existsF := execExists env.existsF (runModel rm1 env).orders
        (runModel rm1 env).demote }).onDeckPaths
      = (phase1 env).onDeckPaths := by
    unfold phase1
    dsimp only
    split_ifs with hfree
    · exact phase1_fold_onDeck_congr env.config env.sessions env.sessions
        _ env.existsF env.onDeck ⟨[], []⟩ ⟨[], []⟩ rfl
    · rfl
  constructor
  · rw [runModel_orders]
    unfold phase1
    dsimp only
    split_ifs with hfree
    · refine phase1_fold_orders_nil env.config env.sessions _ env.onDeck
        ⟨[], []⟩ ?_
      intro it hit hem
      obtain ⟨hlib0, huser, h2a, h2c, hplay⟩ := hem
      have hlib : env.config.libraries = [] ∨
          env.config.libraries.any (fun l => strContains it.src l) = true := by
        rcases not_and_or.mp hlib0 with h | h
        · exact Or.inl (not_not.mp h)
        · exact Or.inr (not_not.mp h)
      have horders1 : (runModel rm1 env).orders
          = (env.onDeck.foldl
              (phase1Step env.config env.sessions env.existsF) ⟨[], []⟩).orders := by
        rw [runModel_orders]; unfold phase1; rw [if_pos hfree]
      have hshape : ∀ o ∈ (runModel rm1 env).orders, ∃ it2 ∈ env.onDeck,
          o = ⟨it2.src, arrOf env.config it2, cacheOf env.config it2⟩ := by
        intro o ho
        rw [horders1] at ho
        rcases phase1_fold_orders_shape env.config env.sessions env.existsF
            env.onDeck ⟨[], []⟩ o ho with h | ⟨it2, hit2, _, heq⟩
        · cases h
        · exact ⟨it2, hit2, heq⟩
      have hAnot : arrOf env.config it
          ∉ (runModel rm1 env).orders.map (fun o => o.cacheDst) := by
        intro hmem
        obtain ⟨o, ho, hoe⟩ := List.mem_map.mp hmem
        obtain ⟨it2, hit2, rfl⟩ := hshape o ho
        exact hdisj it hit it2 hit2 hoe.symm
      have hCnotArr : cacheOf env.config it
          ∉ (runModel rm1 env).orders.map (fun o => o.arrSrc) := by
        intro hmem
        obtain ⟨o, ho, hoe⟩ := List.mem_map.mp hmem
        obtain ⟨it2, hit2, rfl⟩ := hshape o ho
        exact hdisj it2 hit2 it hit hoe
      have hCmem1 : cacheOf env.config it ∈ (phase1 env).onDeckPaths := by
        unfold phase1; rw [if_pos hfree]
        exact phase1_mem_cacheDst env.config env.sessions env.existsF env.onDeck
          ⟨[], []⟩ it hit hlib huser
      have hCnotDem : cacheOf env.config it ∉ (runModel rm1 env).demote := by
        intro hmem
        rcases phase2_demote_shape env ⟨(phase1 env).onDeckPaths, []⟩
            (cacheOf env.config it) (by rwa [runModel_demote] at hmem) with h | h
        · cases h
        · exact h hCmem1
      unfold execExists at h2a h2c
      try dsimp only at h2a h2c
      rw [if_neg hAnot] at h2a
      by_cases hAA : arrOf env.config it
          ∈ (runModel rm1 env).orders.map (fun o => o.arrSrc)
      · rw [if_pos hAA] at h2a; cases h2a
      rw [if_neg hAA] at h2a
      by_cases hAD : arrOf env.config it ∈ (runModel rm1 env).demote
      · rw [if_pos hAD] at h2a; cases h2a
      rw [if_neg hAD] at h2a
      by_cases hCC : cacheOf env.config it
          ∈ (runModel rm1 env).orders.map (fun o => o.cacheDst)
      · rw [if_pos hCC] at h2c; cases h2c
      rw [if_neg hCC, if_neg hCnotArr, if_neg hCnotDem] at h2c
      have hem1 : p1Emits env.config env.sessions env.existsF it :=
        ⟨hlib0, huser, h2a, h2c, hplay⟩
      have hord := phase1_fold_orders_complete env.config env.sessions
        env.existsF env.onDeck ⟨[], []⟩ it hit hem1
      exact hCC (by rw [horders1]; exact List.mem_map.mpr ⟨_, hord, rfl⟩)
    · rfl
  · rw [runModel_demote]
    unfold phase2
    try dsimp only
    refine phase2_fold_demote_nil env.sessions _ _
      ((phase1 { env with
        prevExclude := (runModel rm1 env).snapshot
        existsF := execExists env.existsF (runModel rm1 env).orders
          (runModel rm1 env).demote }).onDeckPaths) _
      (fun q hq => hq) rfl ?_
    intro p hp
    rw [runModel_snapshot] at hp
    rcases phase2_onDeck_shape env ⟨(phase1 env).onDeckPaths, []⟩ p hp with h | h
    · left; rw [hB2]; exact h
    · right; exact h

/-- A one-candidate environment for the C6 witness: the candidate is on
the array only, nothing is playing, the breaker is off. -/
def c6Env : RunEnv :=
  { config := { cache_path := "/mnt/cache", array_path := "/mnt/user0",
                min_free_percent := 10, libraries := [] }
    onDeck := [⟨1, "/mnt/user/TV/a.mkv", "RESUME"⟩]
    sessions := []
    prevExclude := []
    free_pct := 50
    existsF := fun s => s == "/mnt/user0/TV/a.mkv" }

/-- The environment of the second run after enacting the first. -/
def c6Env2 : RunEnv :=
  { c6Env with
    prevExclude := (runModel true c6Env).snapshot
    existsF := execExists c6Env.existsF (runModel true c6Env).orders
      (runModel true c6Env).demote }

theorem c6_second_run_plans_nothing_witness :
    (runModel true c6Env2).orders = [] ∧ (runModel true c6Env2).demote = [] :=
  c6_second_run_plans_nothing c6Env true true (by decide) c6Env2 rfl

end EmbyCache
